import Mathlib

/-
Verification development for the Mydevify scheduled-task core
(src-tauri/src/scheduler.rs and src-tauri/src/task_runner.rs).

The Rust code is embedded shallowly:
* the data model (ScheduledTask, TaskStep, StepResult, TaskRun, TaskStore, ...)
  is translated field by field;
* the in-memory store mutations (update_task, record_run, get_task_history)
  become pure functions from the old store to the new store; the global mutex
  and the save_store disk write are outside the embedded state transition;
* external libraries are parameters: the cron crate's Schedule::from_str and
  upcoming iterator, chrono's RFC 3339 parser and Utc::now, and the step
  executors (shell, HTTP, AI) which execute_task only observes through their
  (status, output, error) result triple.  Wall-clock timestamp strings stored
  inside results are abstracted to "" — no verified property inspects them.
-/

namespace Mydevify

/-- Executor tag of a step (scheduler.rs `enum Executor`). -/
inductive Executor
  | localExec
  | web
  | ai
deriving DecidableEq

/-- Step action payloads (scheduler.rs `enum StepAction`); the HashMap of HTTP
headers is embedded as an association list. -/
inductive StepAction
  | runCommand (command : String) (cwd : Option String)
  | backupFiles (source : String) (destination : String)
  | gitCommit (message : String)
  | gitPush (remote : Option String) (branch : Option String)
  | runScript (path : String)
  | deleteFiles (path : String) (pat : String)
  | httpRequest (url : String) (method : String)
      (headers : Option (List (String × String))) (body : Option String)
  | deployTrigger (provider : String) (projectId : String)
  | sendWebhook (url : String) (payload : Option String)
  | generateContent (prompt : String) (outputPath : Option String)
  | analyzeAndAct (prompt : String)
deriving DecidableEq

/-- Per-task failure policy (scheduler.rs `enum FailureAction`). -/
inductive FailureAction
  | stop
  | skipAndContinue
  | retry (max_attempts : Nat)
deriving DecidableEq

/-- Status of one step outcome (scheduler.rs `enum StepStatus`). -/
inductive StepStatus
  | pending
  | running
  | success
  | failed
  | skipped
deriving DecidableEq

/-- Overall status of one run (scheduler.rs `enum RunStatus`). -/
inductive RunStatus
  | running
  | success
  | partialSuccess
  | failed
deriving DecidableEq

/-- One unit of work inside a task (scheduler.rs `struct TaskStep`). -/
structure TaskStep where
  id : String
  name : String
  executor : Executor
  action : StepAction
  depends_on_previous : Bool
deriving DecidableEq

/-- Recorded outcome of one step (scheduler.rs `struct StepResult`). -/
structure StepResult where
  step_id : String
  status : StepStatus
  output : Option String
  error : Option String
  started_at : String
  finished_at : Option String
deriving DecidableEq

/-- One execution record (scheduler.rs `struct TaskRun`). -/
structure TaskRun where
  started_at : String
  finished_at : Option String
  status : RunStatus
  step_results : List StepResult
deriving DecidableEq

/-- A user-defined automation (scheduler.rs `struct ScheduledTask`). -/
structure ScheduledTask where
  id : String
  name : String
  description : String
  schedule : String
  cron_expression : String
  project_id : Option String
  enabled : Bool
  steps : List TaskStep
  on_failure : FailureAction
  last_run : Option TaskRun
  next_run : Option String
  created_at : String
  updated_at : String
deriving DecidableEq

/-- Per-task bounded run log (scheduler.rs `struct TaskHistory`). -/
structure TaskHistory where
  task_id : String
  runs : List TaskRun
deriving DecidableEq

/-- The aggregate store (scheduler.rs `struct TaskStore`). -/
structure TaskStore where
  tasks : List ScheduledTask
  history : List TaskHistory
deriving DecidableEq

-- ── Cron helpers ─────────────────────────────────────────────────

/-- Accumulator pass behind `split_whitespace`: `acc` holds the characters of
the field being read, in reverse. -/
def fieldsAux (acc : List Char) : List Char → List (List Char)
  | [] => if acc.isEmpty then [] else [acc.reverse]
  | c :: cs =>
    if c.isWhitespace then
      if acc.isEmpty then fieldsAux [] cs
      else acc.reverse :: fieldsAux [] cs
    else fieldsAux (c :: acc) cs

/-- Model of Rust `str::split_whitespace` collected to a vector: maximal runs
of non-whitespace characters, with no empty fragments.  The `.trim()` the
source applies first only strips leading/trailing whitespace, which this
splitting already ignores, so it is not modelled separately. -/
def split_whitespace (s : String) : List String :=
  (fieldsAux [] s.data).map List.asString

/-- The field-count normalization inside `next_run_time` (scheduler.rs
lines 211-217): 5-field cron gets a leading seconds field and a trailing
year field, 6-field a leading seconds field; any count other than 5, 6, 7
is rejected. -/
def cron_full_expr (cron_expr : String) : Option String :=
  let parts := split_whitespace cron_expr
  if parts.length = 5 then some ("0 " ++ cron_expr ++ " *")
  else if parts.length = 6 then some ("0 " ++ cron_expr)
  else if parts.length = 7 then some cron_expr
  else none

/-- scheduler.rs `next_run_time`.  The cron crate is abstracted: `Schedule` is
the crate's parsed-schedule type, `from_str` its parser, and `upcoming s now`
models `s.upcoming(Utc).next()` evaluated when the current instant is `now`
(timestamps are Int).  The body mirrors the source: normalize the field count,
parse, then take the next upcoming instant, propagating failure as `none`. -/
def next_run_time {Schedule : Type} (from_str : String → Option Schedule)
    (upcoming : Schedule → Int → Option Int) (now : Int) (cron_expr : String) :
    Option Int :=
  match cron_full_expr cron_expr with
  | none => none
  | some full_expr =>
    match from_str full_expr with
    | none => none
    | some schedule => upcoming schedule now

/-- scheduler.rs `is_task_due`.  chrono's `DateTime::parse_from_rfc3339` is
abstracted as `parse_rfc3339` returning an absolute timestamp (the
`with_timezone(&Utc)` conversion preserves the instant), and `Utc::now()` as
`now`. -/
def is_task_due (parse_rfc3339 : String → Option Int) (now : Int)
    (task : ScheduledTask) : Bool :=
  if !task.enabled then false
  else
    match task.next_run with
    | some next_run_str =>
      match parse_rfc3339 next_run_str with
      | some next_utc => decide (next_utc ≤ now)
      | none => false
    | none => false

-- ── Store operations ─────────────────────────────────────────────

/-- scheduler.rs `update_task`.  `nrt` abstracts `next_run_time` applied at the
current instant and `now` the `Utc::now().to_rfc3339()` stamp.  The result
pairs the (possibly unchanged) store with the source's `Result`: on a missing
id the store is returned untouched together with the NotFound error. -/
def update_task (nrt : String → Option String) (now : String)
    (store : TaskStore) (updated : ScheduledTask) :
    TaskStore × Except String ScheduledTask :=
  match store.tasks.findIdx? (fun t => t.id == updated.id) with
  | none => (store, Except.error ("Task not found: " ++ updated.id))
  | some pos =>
    let task := { updated with
                  updated_at := now
                  next_run := nrt updated.cron_expression }
    ({ store with tasks := store.tasks.set pos task }, Except.ok task)

/-- Functional rendering of `iter_mut().find(p)` followed by a mutation `f` of
the found element: rewrite the first element satisfying `p`, keep the rest. -/
def updateFirst (p : α → Bool) (f : α → α) : List α → List α
  | [] => []
  | x :: xs => if p x then f x :: xs else x :: updateFirst p f xs

/-- The history-trimming step of `record_run` (scheduler.rs lines 380-382):
`runs.split_off(runs.len() - 20)` keeps the last 20 runs when more than 20 are
present. -/
def trimRuns (runs : List TaskRun) : List TaskRun :=
  if runs.length > 20 then runs.drop (runs.length - 20) else runs

/-- The history-update half of `record_run` (scheduler.rs lines 375-390):
push the run onto the first history entry with this task id and trim to the
last 20, or append a fresh entry holding just this run when none exists. -/
def record_history (task_id : String) (run : TaskRun) :
    List TaskHistory → List TaskHistory
  | [] => [{ task_id := task_id, runs := [run] }]
  | h :: rest =>
    if h.task_id == task_id then
      { h with runs := trimRuns (h.runs ++ [run]) } :: rest
    else
      h :: record_history task_id run rest

/-- scheduler.rs `record_run` as a store transition.  `nrt` abstracts
`next_run_time` at the current instant.  The task half updates `last_run` and
advances `next_run` on the first task with this id (a missing task is silently
fine); the history half appends and trims.  The source returns `Ok` in every
case the embedding covers (its only error sources are the poisoned mutex and
the disk write, outside the embedded state). -/
def record_run (nrt : String → Option String) (store : TaskStore)
    (task_id : String) (run : TaskRun) : TaskStore :=
  { tasks :=
      updateFirst (fun t => t.id == task_id)
        (fun t => { t with
                    last_run := some run
                    next_run := nrt t.cron_expression })
        store.tasks
    history := record_history task_id run store.history }

/-- Runs of the first history entry with this task id, or `[]` — the lookup
inside scheduler.rs `get_task_history`. -/
def runsOf (history : List TaskHistory) (task_id : String) : List TaskRun :=
  ((history.find? (fun h => h.task_id == task_id)).map TaskHistory.runs).getD []

/-- scheduler.rs `get_task_history`: runs of the first history entry with this
task id, or `[]`. -/
def get_task_history (store : TaskStore) (task_id : String) : List TaskRun :=
  runsOf store.history task_id

-- ── Task runner (task_runner.rs execute_task) ────────────────────

/-- The (status, output, error) triple returned by `execute_step`
(task_runner.rs line 219): the uniform executor contract. -/
structure StepOutcome where
  status : StepStatus
  output : Option String
  error : Option String
deriving DecidableEq

/-- The `StepResult` built from one executor outcome (task_runner.rs
lines 96-103); the wall-clock `started_at`/`finished_at` stamps are
abstracted to the placeholder string. -/
def mkResult (step_id : String) (o : StepOutcome) : StepResult :=
  { step_id := step_id
    status := o.status
    output := o.output
    error := o.error
    started_at := ""
    finished_at := some "" }

/-- The synthesized `Skipped` result (task_runner.rs lines 67-74 and
136-143). -/
def skippedResult (step_id : String) (msg : String) : StepResult :=
  { step_id := step_id
    status := StepStatus.skipped
    output := none
    error := some msg
    started_at := ""
    finished_at := some "" }

/-- Output of the per-step attempt loop: the results pushed for this step and
the `step_succeeded` flag (task_runner.rs lines 88-126). -/
structure AttemptsOut where
  results : List StepResult
  step_succeeded : Bool
deriving DecidableEq

/-- The attempt loop `for attempt in 0..max_attempts` (task_runner.rs
lines 90-126), with `outcome attempt` abstracting the awaited
`execute_step` call on this step.  On `Success` the result is pushed and the
loop breaks; on `Failed` the result is pushed only on the final attempt,
otherwise the attempt is discarded and retried; any other status pushes the
result and breaks without success.  `fuel` counts the remaining iterations
(`max_attempts - attempt`), so the loop runs zero times when
`max_attempts = 0`. -/
def attemptsGo (outcome : Nat → StepOutcome) (step_id : String)
    (max_attempts : Nat) : Nat → Nat → AttemptsOut
  | _, 0 => { results := [], step_succeeded := false }
  | attempt, fuel + 1 =>
    let o := outcome attempt
    let result := mkResult step_id o
    match o.status with
    | StepStatus.success => { results := [result], step_succeeded := true }
    | StepStatus.failed =>
      if attempt = max_attempts - 1 then
        { results := [result], step_succeeded := false }
      else
        attemptsGo outcome step_id max_attempts (attempt + 1) fuel
    | _ => { results := [result], step_succeeded := false }

/-- State of execute_task's step loop: the accumulated `step_results` and the
two mutable flags `had_failure` and `all_skipped_or_success`
(task_runner.rs lines 60-62). -/
structure LoopOut where
  step_results : List StepResult
  had_failure : Bool
  all_skipped_or_success : Bool
deriving DecidableEq

/-- The `max_attempts` computation (task_runner.rs lines 83-86): the Retry
policy's `max_attempts`, and 1 under any other policy. -/
def maxAttemptsOf : FailureAction → Nat
  | FailureAction.retry m => m
  | _ => 1

/-- The step loop of `execute_task` (task_runner.rs lines 64-155).
`exec i attempt` abstracts `execute_step` on step index `i`, attempt
`attempt`.  A step is skipped (with `all_skipped_or_success` cleared, line 78)
when a failure happened and it depends on the previous step; otherwise the
attempt loop runs with `max_attempts` drawn from the Retry policy (else 1);
on ultimate failure the flags are set and the policy branches (the source's
match on `Stop` versus `SkipAndContinue | Retry`, rendered as an if on
`Stop`): `Stop` synthesizes `Skipped` results for every remaining step and
breaks, the other two policies move on to the next step. -/
def stepsGo (exec : Nat → Nat → StepOutcome) (on_failure : FailureAction) :
    List TaskStep → Nat → Bool → Bool → LoopOut
  | [], _, had_failure, all_sos =>
    { step_results := [], had_failure := had_failure
      all_skipped_or_success := all_sos }
  | step :: rest, i, had_failure, all_sos =>
    if had_failure && step.depends_on_previous then
      let result := skippedResult step.id "Skipped: previous step failed"
      let out := stepsGo exec on_failure rest (i + 1) had_failure false
      { out with step_results := result :: out.step_results }
    else
      let att := attemptsGo (exec i) step.id (maxAttemptsOf on_failure) 0
        (maxAttemptsOf on_failure)
      if att.step_succeeded then
        let out := stepsGo exec on_failure rest (i + 1) had_failure all_sos
        { out with step_results := att.results ++ out.step_results }
      else
        if on_failure = FailureAction.stop then
          { step_results :=
              att.results ++ rest.map (fun r =>
                skippedResult r.id "Skipped: task stopped due to earlier failure")
            had_failure := true
            all_skipped_or_success := false }
        else
          let out := stepsGo exec on_failure rest (i + 1) true false
          { out with step_results := att.results ++ out.step_results }

/-- task_runner.rs `execute_task`: run the step loop, then compute the overall
status (lines 157-166): `Success` when no failure, `Success` when
`all_skipped_or_success` still holds, else `PartialSuccess` when any recorded
result is a `Success`, else `Failed`.  Event emission is an unobserved side
effect and the run's wall-clock stamps are abstracted to the placeholder. -/
def execute_task (exec : Nat → Nat → StepOutcome) (task : ScheduledTask) :
    TaskRun :=
  let out := stepsGo exec task.on_failure task.steps 0 false true
  let overall_status :=
    if !out.had_failure then RunStatus.success
    else if out.all_skipped_or_success then RunStatus.success
    else if out.step_results.any (fun r =>
        match r.status with
        | StepStatus.success => true
        | _ => false) then
      RunStatus.partialSuccess
    else RunStatus.failed
  { started_at := ""
    finished_at := some ""
    status := overall_status
    step_results := out.step_results }

/-- The tail of `execute_task` (task_runner.rs lines 168-176): build the
`TaskRun` and record it in history via `scheduler::record_run`, returning the
updated store together with the run. -/
def execute_task_and_record (exec : Nat → Nat → StepOutcome)
    (nrt : String → Option String) (store : TaskStore)
    (task : ScheduledTask) : TaskStore × TaskRun :=
  let run := execute_task exec task
  (record_run nrt store task.id run, run)

-- ── Concrete fixtures ────────────────────────────────────────────

/-- A concrete step used to instantiate theorems. -/
def mkStep (id : String) (dep : Bool) : TaskStep :=
  { id := id
    name := id
    executor := Executor.localExec
    action := StepAction.runScript "s"
    depends_on_previous := dep }

/-- A concrete task used to instantiate theorems. -/
def mkTask (steps : List TaskStep) (fa : FailureAction) : ScheduledTask :=
  { id := "t"
    name := "t"
    description := ""
    schedule := ""
    cron_expression := "* * * * *"
    project_id := none
    enabled := true
    steps := steps
    on_failure := fa
    last_run := none
    next_run := none
    created_at := ""
    updated_at := "" }

/-- A concrete run used to instantiate theorems. -/
def emptyRun : TaskRun :=
  { started_at := ""
    finished_at := some ""
    status := RunStatus.success
    step_results := [] }

-- ── Store lemmas ─────────────────────────────────────────────────

lemma trimRuns_eq_drop (runs : List TaskRun) :
    trimRuns runs = runs.drop (runs.length - 20) := by
  unfold trimRuns
  split
  · rfl
  · rename_i h
    have h0 : runs.length - 20 = 0 := by omega
    rw [h0, List.drop_zero]

lemma length_trimRuns_le (runs : List TaskRun) : (trimRuns runs).length ≤ 20 := by
  rw [trimRuns_eq_drop, List.length_drop]
  omega

lemma runsOf_record_history (task_id : String) (run : TaskRun)
    (history : List TaskHistory) :
    runsOf (record_history task_id run history) task_id
      = trimRuns (runsOf history task_id ++ [run]) := by
  induction history with
  | nil => simp [record_history, runsOf, List.find?, trimRuns]
  | cons h rest ih =>
    by_cases hid : (h.task_id == task_id) = true
    · simp [record_history, runsOf, List.find?, hid]
    · simp only [record_history, hid, Bool.false_eq_true, if_false, runsOf,
        List.find?, cond_false] at ih ⊢
      exact ih

lemma updateFirst_of_forall_neg (p : α → Bool) (f : α → α) (l : List α)
    (h : ∀ x ∈ l, p x = false) : updateFirst p f l = l := by
  induction l with
  | nil => rfl
  | cons x xs ih =>
    simp only [updateFirst, h x (by simp), Bool.false_eq_true, if_false,
      List.cons.injEq, true_and]
    exact ih fun y hy => h y (by simp [hy])

lemma record_history_of_absent (task_id : String) (run : TaskRun)
    (history : List TaskHistory) (h : ∀ e ∈ history, e.task_id ≠ task_id) :
    record_history task_id run history
      = history ++ [{ task_id := task_id, runs := [run] }] := by
  induction history with
  | nil => rfl
  | cons e rest ih =>
    have he : (e.task_id == task_id) = false := by
      simpa using h e (by simp)
    simp only [record_history, he, Bool.false_eq_true, if_false,
      List.cons_append, List.cons.injEq, true_and]
    exact ih fun y hy => h y (by simp [hy])

-- ── Store / cron theorems ────────────────────────────────────────

/-- C4: after any `record_run`, the task's history holds at most 20 runs, and
the retained runs are exactly the most recent 20 (oldest evicted first, order
preserved): the new run list is the old list with the run appended, dropped to
its last 20 elements. -/
theorem record_run_history_bounded (nrt : String → Option String)
    (store : TaskStore) (task_id : String) (run : TaskRun) :
    get_task_history (record_run nrt store task_id run) task_id
        = (get_task_history store task_id ++ [run]).drop
            ((get_task_history store task_id ++ [run]).length - 20)
      ∧ (get_task_history (record_run nrt store task_id run) task_id).length
          ≤ 20 := by
  have h := runsOf_record_history task_id run store.history
  constructor
  · simp only [get_task_history, record_run, h, trimRuns_eq_drop]
  · simp only [get_task_history, record_run, h]
    exact length_trimRuns_le _

/-- C5: `update_task` on an id absent from the store fails with the NotFound
error and returns the store exactly as it was. -/
theorem update_task_not_found (nrt : String → Option String) (now : String)
    (store : TaskStore) (updated : ScheduledTask)
    (habs : ∀ t ∈ store.tasks, t.id ≠ updated.id) :
    update_task nrt now store updated
      = (store, Except.error ("Task not found: " ++ updated.id)) := by
  have hidx : store.tasks.findIdx? (fun t => t.id == updated.id) = none := by
    rw [List.findIdx?_eq_none_iff]
    intro t ht
    simpa using habs t ht
  rw [update_task, hidx]

/-- Witness for C5 at a concrete empty store. -/
theorem update_task_not_found_witness :
    update_task (fun _ => none) "now" { tasks := [], history := [] }
        (mkTask [] FailureAction.stop)
      = ({ tasks := [], history := [] },
         Except.error ("Task not found: " ++ (mkTask [] FailureAction.stop).id)) :=
  update_task_not_found _ _ _ _ (by simp)

/-- C6: `next_run_time` returns none when the expression does not have 5, 6 or
7 whitespace-separated fields, none when the cron parser rejects the
normalized expression, and — given the cron crate's contract that the upcoming
iterator of a parsed schedule yields an instant and only instants strictly
after now — some timestamp strictly greater than now for every valid
expression. -/
theorem next_run_time_spec {Schedule : Type}
    (from_str : String → Option Schedule)
    (upcoming : Schedule → Int → Option Int) (now : Int) (cron_expr : String) :
    (¬((split_whitespace cron_expr).length = 5
        ∨ (split_whitespace cron_expr).length = 6
        ∨ (split_whitespace cron_expr).length = 7) →
      next_run_time from_str upcoming now cron_expr = none)
    ∧ (∀ fe, cron_full_expr cron_expr = some fe → from_str fe = none →
        next_run_time from_str upcoming now cron_expr = none)
    ∧ (∀ fe s, cron_full_expr cron_expr = some fe → from_str fe = some s →
        (upcoming s now).isSome → (∀ t, upcoming s now = some t → now < t) →
        ∃ t, next_run_time from_str upcoming now cron_expr = some t
          ∧ now < t) := by
  refine ⟨?_, ?_, ?_⟩
  · intro h
    push_neg at h
    obtain ⟨h5, h6, h7⟩ := h
    have hnone : cron_full_expr cron_expr = none := by
      unfold cron_full_expr
      simp only [h5, h6, h7, if_false]
    simp [next_run_time, hnone]
  · intro fe hfe hns
    simp [next_run_time, hfe, hns]
  · intro fe s hfe hfs hsome hlt
    obtain ⟨t, ht⟩ := Option.isSome_iff_exists.mp hsome
    exact ⟨t, by simp [next_run_time, hfe, hfs, ht], hlt t ht⟩

/-- Witness for C6 on the 5-field expression "1 2 3 4 5" with a concrete
model of the cron crate. -/
theorem next_run_time_spec_witness :
    ∃ t, next_run_time (fun _ => some (0 : Int)) (fun _ n => some (n + 1)) 0
        "1 2 3 4 5" = some t ∧ (0 : Int) < t :=
  (next_run_time_spec (fun _ => some (0 : Int)) (fun _ n => some (n + 1)) 0
      "1 2 3 4 5").2.2 "0 1 2 3 4 5 *" 0 (by decide) rfl rfl
    (fun t ht => by simp only [Option.some.injEq] at ht; omega)

/-- C7: `is_task_due` is false on a disabled task and on an absent `next_run`;
on an enabled task with a parseable `next_run`, it is true exactly when that
instant is at or before now. -/
theorem is_task_due_spec (parse : String → Option Int) (now : Int)
    (task : ScheduledTask) :
    (task.enabled = false → is_task_due parse now task = false)
    ∧ (task.next_run = none → is_task_due parse now task = false)
    ∧ (∀ s t, task.enabled = true → task.next_run = some s → parse s = some t →
        (is_task_due parse now task = true ↔ t ≤ now)) := by
  refine ⟨fun h => by simp [is_task_due, h], fun h => ?_, ?_⟩
  · cases he : task.enabled <;> simp [is_task_due, h, he]
  · intro s t he hn hp
    simp [is_task_due, he, hn, hp]

/-- Witness for C7: a concrete enabled task whose parsed `next_run` is in the
past is due. -/
theorem is_task_due_spec_witness :
    is_task_due (fun _ => some 3) 5
      { mkTask [] FailureAction.stop with next_run := some "x" } = true :=
  ((is_task_due_spec (fun _ => some 3) 5
      { mkTask [] FailureAction.stop with next_run := some "x" }).2.2
    "x" 3 rfl rfl rfl).mpr (by omega)

/-- C8: `record_run` on a task id absent from the task list does not fail:
it leaves every stored task unchanged, records the run under that id, and
when no history entry for the id exists it appends a fresh entry holding just
this run. -/
theorem record_run_absent_task (nrt : String → Option String)
    (store : TaskStore) (task_id : String) (run : TaskRun)
    (habs : ∀ t ∈ store.tasks, t.id ≠ task_id) :
    (record_run nrt store task_id run).tasks = store.tasks
    ∧ get_task_history (record_run nrt store task_id run) task_id
        = trimRuns (get_task_history store task_id ++ [run])
    ∧ ((∀ e ∈ store.history, e.task_id ≠ task_id) →
        (record_run nrt store task_id run).history
          = store.history ++ [{ task_id := task_id, runs := [run] }]) := by
  refine ⟨?_, ?_, fun hh => ?_⟩
  · simp only [record_run]
    exact updateFirst_of_forall_neg _ _ _ fun t ht => by simpa using habs t ht
  · simp only [record_run, get_task_history]
    exact runsOf_record_history task_id run store.history
  · simp only [record_run]
    exact record_history_of_absent task_id run store.history hh

/-- Witness for C8 at a concrete empty store. -/
theorem record_run_absent_task_witness :
    (record_run (fun _ => none) { tasks := [], history := [] } "t"
        emptyRun).tasks = []
    ∧ get_task_history
        (record_run (fun _ => none) { tasks := [], history := [] } "t"
          emptyRun) "t"
        = trimRuns (get_task_history { tasks := [], history := [] } "t"
            ++ [emptyRun])
    ∧ (record_run (fun _ => none) { tasks := [], history := [] } "t"
        emptyRun).history = [{ task_id := "t", runs := [emptyRun] }] := by
  have h := record_run_absent_task (fun _ => none)
    { tasks := [], history := [] } "t" emptyRun (by simp)
  exact ⟨h.1, h.2.1, by simpa using h.2.2 (by simp)⟩

/-- C10: an enabled task whose `next_run` is present but unparseable is never
due — `is_task_due` returns false rather than erroring or firing. -/
theorem is_task_due_unparseable (parse : String → Option Int) (now : Int)
    (task : ScheduledTask) (s : String) (he : task.enabled = true)
    (hn : task.next_run = some s) (hp : parse s = none) :
    is_task_due parse now task = false := by
  simp [is_task_due, he, hn, hp]

/-- Witness for C10 at a concrete task with a garbage `next_run`. -/
theorem is_task_due_unparseable_witness :
    is_task_due (fun _ => none) 0
      { mkTask [] FailureAction.stop with next_run := some "garbage" }
      = false :=
  is_task_due_unparseable _ _ _ "garbage" rfl rfl rfl

-- ── Task-runner lemmas ───────────────────────────────────────────

lemma attemptsGo_status_success (o : Nat → StepOutcome) (sid : String)
    (max attempt fuel : Nat) (h : (o attempt).status = StepStatus.success) :
    attemptsGo o sid max attempt (fuel + 1)
      = { results := [mkResult sid (o attempt)], step_succeeded := true } := by
  simp only [attemptsGo, h]

lemma attemptsGo_status_failed_last (o : Nat → StepOutcome) (sid : String)
    (max attempt fuel : Nat) (h : (o attempt).status = StepStatus.failed)
    (hl : attempt = max - 1) :
    attemptsGo o sid max attempt (fuel + 1)
      = { results := [mkResult sid (o attempt)], step_succeeded := false } := by
  simp only [attemptsGo, h]
  simp [hl]

lemma attemptsGo_status_failed_retry (o : Nat → StepOutcome) (sid : String)
    (max attempt fuel : Nat) (h : (o attempt).status = StepStatus.failed)
    (hl : ¬attempt = max - 1) :
    attemptsGo o sid max attempt (fuel + 1)
      = attemptsGo o sid max (attempt + 1) fuel := by
  simp only [attemptsGo, h]
  simp [hl]

lemma map_status_skipped (msg : String) (l : List TaskStep) :
    ((l.map fun r => skippedResult r.id msg).map StepResult.status)
      = List.replicate l.length StepStatus.skipped := by
  induction l with
  | nil => rfl
  | cons x xs ih =>
    simp only [List.map_cons, List.length_cons, List.replicate_succ,
      List.cons.injEq]
    exact ⟨rfl, ih⟩

lemma any_success_skipped (msg : String) (l : List TaskStep) :
    ((l.map fun r => skippedResult r.id msg).any fun r =>
      match r.status with
      | StepStatus.success => true
      | _ => false) = false := by
  induction l with
  | nil => rfl
  | cons x xs ih =>
    simp only [List.map_cons, List.any_cons, ih, Bool.or_false]
    rfl

/-- The `else if all_skipped_or_success` branch of the overall-status
computation (task_runner.rs line 160) is unreachable: every path of the step
loop that sets `had_failure` also clears `all_skipped_or_success`, and every
dependency-skip clears it too, so `had_failure = true` always comes with
`all_skipped_or_success = false`. -/
theorem stepsGo_had_failure_not_all_skipped (exec : Nat → Nat → StepOutcome)
    (fa : FailureAction) :
    ∀ (steps : List TaskStep) (i : Nat) (had allS : Bool),
      (had = true → allS = false) →
      (stepsGo exec fa steps i had allS).had_failure = true →
      (stepsGo exec fa steps i had allS).all_skipped_or_success = false := by
  intro steps
  induction steps with
  | nil =>
    intro i had allS hinv hhad
    simp only [stepsGo] at hhad ⊢
    exact hinv hhad
  | cons s rest ih =>
    intro i had allS hinv
    simp only [stepsGo]
    split
    · exact ih (i + 1) had false (fun _ => rfl)
    · split
      · exact ih (i + 1) had allS hinv
      · split
        · intro _
          rfl
        · exact ih (i + 1) true false (fun _ => rfl)

/-- Step-loop behavior under `Stop` with a failing step at position `k` after
`k` first-attempt successes: the recorded statuses are `k` successes, then the
failure, then one `Skipped` per remaining step; `had_failure` ends true and
`all_skipped_or_success` false; a `Success` is recorded exactly when `k > 0`. -/
lemma stepsGo_stop_spec (exec : Nat → Nat → StepOutcome) :
    ∀ (steps : List TaskStep) (k i : Nat),
      k < steps.length →
      (∀ j, j < k → (exec (i + j) 0).status = StepStatus.success) →
      (exec (i + k) 0).status = StepStatus.failed →
      ((stepsGo exec FailureAction.stop steps i false true).step_results.map
            StepResult.status
          = List.replicate k StepStatus.success
            ++ StepStatus.failed
              :: List.replicate (steps.length - k - 1) StepStatus.skipped)
      ∧ (stepsGo exec FailureAction.stop steps i false true).had_failure = true
      ∧ (stepsGo exec FailureAction.stop steps i false true).all_skipped_or_success
          = false
      ∧ ((stepsGo exec FailureAction.stop steps i false true).step_results.any
          fun r =>
            match r.status with
            | StepStatus.success => true
            | _ => false) = decide (0 < k) := by
  intro steps
  induction steps with
  | nil =>
    intro k i hk
    simp at hk
  | cons s rest ih =>
    intro k i hk hsucc hfail
    cases k with
    | zero =>
      have h0 : (exec i 0).status = StepStatus.failed := by
        simpa using hfail
      have hatt : attemptsGo (exec i) s.id 1 0 1
          = { results := [mkResult s.id (exec i 0)], step_succeeded := false } :=
        attemptsGo_status_failed_last (exec i) s.id 1 0 0 h0 (by omega)
      have hgo : stepsGo exec FailureAction.stop (s :: rest) i false true
          = { step_results :=
                mkResult s.id (exec i 0) :: rest.map (fun r =>
                  skippedResult r.id
                    "Skipped: task stopped due to earlier failure")
              had_failure := true
              all_skipped_or_success := false } := by
        simp only [stepsGo, maxAttemptsOf]
        rw [hatt]
        simp
      rw [hgo]
      refine ⟨?_, rfl, rfl, ?_⟩
      · simp only [List.map_cons, map_status_skipped, mkResult, h0,
          List.length_cons, List.replicate, List.nil_append]
        simp
      · simp only [List.any_cons, any_success_skipped, Bool.or_false, mkResult,
          h0]
        rfl
    | succ k' =>
      have h0 : (exec i 0).status = StepStatus.success := by
        simpa using hsucc 0 (by omega)
      have hatt : attemptsGo (exec i) s.id 1 0 1
          = { results := [mkResult s.id (exec i 0)], step_succeeded := true } :=
        attemptsGo_status_success (exec i) s.id 1 0 0 h0
      have hsucc' : ∀ j, j < k' → (exec (i + 1 + j) 0).status
          = StepStatus.success := by
        intro j hj
        have h := hsucc (j + 1) (by omega)
        rwa [show i + (j + 1) = i + 1 + j by omega] at h
      have hfail' : (exec (i + 1 + k') 0).status = StepStatus.failed := by
        rwa [show i + (k' + 1) = i + 1 + k' by omega] at hfail
      have hk' : k' < rest.length := by
        simpa using Nat.lt_of_succ_lt_succ hk
      obtain ⟨ihmap, ihhad, ihall, ihany⟩ := ih k' (i + 1) hk' hsucc' hfail'
      have hgo : stepsGo exec FailureAction.stop (s :: rest) i false true
          = { step_results :=
                mkResult s.id (exec i 0)
                  :: (stepsGo exec FailureAction.stop rest (i + 1)
                        false true).step_results
              had_failure := (stepsGo exec FailureAction.stop rest (i + 1)
                  false true).had_failure
              all_skipped_or_success :=
                (stepsGo exec FailureAction.stop rest (i + 1)
                  false true).all_skipped_or_success } := by
        simp only [stepsGo, maxAttemptsOf]
        rw [hatt]
        simp
      rw [hgo]
      refine ⟨?_, ihhad, ihall, ?_⟩
      · simp only [List.map_cons, ihmap, mkResult, h0]
        rw [show (s :: rest).length - (k' + 1) - 1 = rest.length - k' - 1
          by simp]
        simp [List.replicate_succ]
      · simp only [List.any_cons, ihany, mkResult, h0]
        simp

-- ── Task-runner theorems ─────────────────────────────────────────

/-- C1: evaluating `execute_task` on the spec's all-skipped scenario — first
step fails under `SkipAndContinue`, the only other step depends on the
previous one and is skipped — yields overall status `Failed`, not the
`Success` the specification's all-skipped-or-success rule promises. -/
theorem execute_task_all_skipped_is_failed :
    (execute_task
        (fun _ _ => { status := StepStatus.failed, output := none,
                      error := some "boom" })
        (mkTask [mkStep "a" false, mkStep "b" true]
          FailureAction.skipAndContinue)).status
      = RunStatus.failed
    ∧ ((execute_task
        (fun _ _ => { status := StepStatus.failed, output := none,
                      error := some "boom" })
        (mkTask [mkStep "a" false, mkStep "b" true]
          FailureAction.skipAndContinue)).step_results.map StepResult.status)
      = [StepStatus.failed, StepStatus.skipped] := by
  decide

/-- C2 counterexample: a two-step `Stop` task whose first step succeeds and
whose second step fails satisfies the claim's hypotheses (the failing step is
`k = 1` of `n = 2` and every earlier step was attempted), produces the claimed
`n - k - 1 = 0` skipped results, but ends with overall status
`PartialSuccess`, not the claimed `Failed`. -/
theorem execute_task_stop_partial_counterexample :
    ((execute_task
        (fun i _ => if i = 0 then
            { status := StepStatus.success, output := none, error := none }
          else
            { status := StepStatus.failed, output := none, error := some "x" })
        (mkTask [mkStep "a" false, mkStep "b" false]
          FailureAction.stop)).step_results.map StepResult.status)
      = [StepStatus.success, StepStatus.failed]
    ∧ (execute_task
        (fun i _ => if i = 0 then
            { status := StepStatus.success, output := none, error := none }
          else
            { status := StepStatus.failed, output := none, error := some "x" })
        (mkTask [mkStep "a" false, mkStep "b" false]
          FailureAction.stop)).status
      = RunStatus.partialSuccess
    ∧ RunStatus.partialSuccess ≠ RunStatus.failed := by
  decide

/-- C2 amended: under `on_failure = Stop`, when the `k` earlier steps succeed
on their single attempt and step `k` fails, the run records `k` successes,
the failure, then exactly `n - k - 1` `Skipped` results for the steps after
`k`; the overall status is `Failed` when `k = 0` and `PartialSuccess` when
`k > 0` (some earlier step succeeded). -/
theorem execute_task_stop_spec (exec : Nat → Nat → StepOutcome)
    (task : ScheduledTask) (k : Nat)
    (hfa : task.on_failure = FailureAction.stop)
    (hk : k < task.steps.length)
    (hsucc : ∀ j, j < k → (exec j 0).status = StepStatus.success)
    (hfail : (exec k 0).status = StepStatus.failed) :
    ((execute_task exec task).step_results.map StepResult.status
        = List.replicate k StepStatus.success
          ++ StepStatus.failed
            :: List.replicate (task.steps.length - k - 1) StepStatus.skipped)
    ∧ (execute_task exec task).status
        = (if k = 0 then RunStatus.failed else RunStatus.partialSuccess) := by
  obtain ⟨hmap, hhad, hall, hany⟩ :=
    stepsGo_stop_spec exec task.steps k 0 hk
      (fun j hj => by simpa using hsucc j hj) (by simpa using hfail)
  constructor
  · simpa [execute_task, hfa] using hmap
  · simp only [execute_task, hfa, hhad, hall, hany, Bool.not_true,
      Bool.false_eq_true, if_false]
    cases k with
    | zero => simp
    | succ k' => simp

/-- Witness for the amended C2 on a concrete three-step `Stop` task failing at
step 1. -/
theorem execute_task_stop_spec_witness :
    ((execute_task
        (fun i _ => if i = 0 then
            { status := StepStatus.success, output := none, error := none }
          else
            { status := StepStatus.failed, output := none, error := some "x" })
        (mkTask [mkStep "a" false, mkStep "b" false, mkStep "c" false]
          FailureAction.stop)).step_results.map StepResult.status
      = List.replicate 1 StepStatus.success
        ++ StepStatus.failed :: List.replicate 1 StepStatus.skipped)
    ∧ (execute_task
        (fun i _ => if i = 0 then
            { status := StepStatus.success, output := none, error := none }
          else
            { status := StepStatus.failed, output := none, error := some "x" })
        (mkTask [mkStep "a" false, mkStep "b" false, mkStep "c" false]
          FailureAction.stop)).status
      = (if 1 = 0 then RunStatus.failed else RunStatus.partialSuccess) := by
  have h := execute_task_stop_spec
    (fun i _ => if i = 0 then
        { status := StepStatus.success, output := none, error := none }
      else
        { status := StepStatus.failed, output := none, error := some "x" })
    (mkTask [mkStep "a" false, mkStep "b" false, mkStep "c" false]
      FailureAction.stop)
    1 rfl (by decide)
    (fun j hj => by interval_cases j; decide) (by decide)
  simpa using h

/-- C3: with `on_failure = Retry{max_attempts: 3}` and a single step whose
executor fails on attempts 0 and 1 and succeeds on attempt 2, `execute_task`
records exactly one `StepResult` for the step — the successful third attempt —
and the run is a `Success`; the two failed attempts are not recorded. -/
theorem execute_task_retry3_single_result (exec : Nat → Nat → StepOutcome)
    (task : ScheduledTask) (s : TaskStep)
    (hfa : task.on_failure = FailureAction.retry 3)
    (hsteps : task.steps = [s])
    (h0 : (exec 0 0).status = StepStatus.failed)
    (h1 : (exec 0 1).status = StepStatus.failed)
    (h2 : (exec 0 2).status = StepStatus.success) :
    (execute_task exec task).step_results = [mkResult s.id (exec 0 2)]
    ∧ (execute_task exec task).status = RunStatus.success := by
  have e1 : attemptsGo (exec 0) s.id 3 0 3 = attemptsGo (exec 0) s.id 3 1 2 :=
    attemptsGo_status_failed_retry (exec 0) s.id 3 0 2 h0 (by omega)
  have e2 : attemptsGo (exec 0) s.id 3 1 2 = attemptsGo (exec 0) s.id 3 2 1 :=
    attemptsGo_status_failed_retry (exec 0) s.id 3 1 1 h1 (by omega)
  have e3 : attemptsGo (exec 0) s.id 3 2 1
      = { results := [mkResult s.id (exec 0 2)], step_succeeded := true } :=
    attemptsGo_status_success (exec 0) s.id 3 2 0 h2
  have hatt : attemptsGo (exec 0) s.id 3 0 3
      = { results := [mkResult s.id (exec 0 2)], step_succeeded := true } := by
    rw [e1, e2, e3]
  constructor <;>
    simp [execute_task, hfa, hsteps, stepsGo, maxAttemptsOf, hatt]

/-- Witness for C3 on a concrete single-step task. -/
theorem execute_task_retry3_single_result_witness :
    (execute_task
        (fun _ a => if a ≤ 1 then
            { status := StepStatus.failed, output := none, error := some "x" }
          else
            { status := StepStatus.success, output := some "ok", error := none })
        (mkTask [mkStep "a" false] (FailureAction.retry 3))).step_results
      = [mkResult "a"
          { status := StepStatus.success, output := some "ok", error := none }]
    ∧ (execute_task
        (fun _ a => if a ≤ 1 then
            { status := StepStatus.failed, output := none, error := some "x" }
          else
            { status := StepStatus.success, output := some "ok", error := none })
        (mkTask [mkStep "a" false] (FailureAction.retry 3))).status
      = RunStatus.success := by
  have h := execute_task_retry3_single_result
    (fun _ a => if a ≤ 1 then
        { status := StepStatus.failed, output := none, error := some "x" }
      else
        { status := StepStatus.success, output := some "ok", error := none })
    (mkTask [mkStep "a" false] (FailureAction.retry 3))
    (mkStep "a" false) rfl rfl (by decide) (by decide) (by decide)
  simpa [mkStep] using h

/-- C9: a task with no steps produces a run with overall status `Success` and
an empty `step_results` list, and that run is recorded in the task's history
via `record_run`. -/
theorem execute_task_empty_steps (exec : Nat → Nat → StepOutcome)
    (nrt : String → Option String) (store : TaskStore) (task : ScheduledTask)
    (h : task.steps = []) :
    (execute_task_and_record exec nrt store task).2.status = RunStatus.success
    ∧ (execute_task_and_record exec nrt store task).2.step_results = []
    ∧ get_task_history (execute_task_and_record exec nrt store task).1 task.id
        = trimRuns (get_task_history store task.id
            ++ [(execute_task_and_record exec nrt store task).2]) := by
  refine ⟨?_, ?_, ?_⟩ <;>
    simp [execute_task_and_record, execute_task, h, stepsGo, record_run,
      get_task_history, runsOf_record_history]

/-- Witness for C9 on a concrete empty-steps task and empty store. -/
theorem execute_task_empty_steps_witness :
    (execute_task_and_record (fun _ _ => ⟨StepStatus.failed, none, none⟩)
        (fun _ => none) { tasks := [], history := [] }
        (mkTask [] FailureAction.stop)).2.status = RunStatus.success
    ∧ (execute_task_and_record (fun _ _ => ⟨StepStatus.failed, none, none⟩)
        (fun _ => none) { tasks := [], history := [] }
        (mkTask [] FailureAction.stop)).2.step_results = []
    ∧ get_task_history
        (execute_task_and_record (fun _ _ => ⟨StepStatus.failed, none, none⟩)
          (fun _ => none) { tasks := [], history := [] }
          (mkTask [] FailureAction.stop)).1
        (mkTask [] FailureAction.stop).id
      = trimRuns (get_task_history { tasks := [], history := [] }
          (mkTask [] FailureAction.stop).id
          ++ [(execute_task_and_record (fun _ _ => ⟨StepStatus.failed, none, none⟩)
              (fun _ => none) { tasks := [], history := [] }
              (mkTask [] FailureAction.stop)).2]) :=
  execute_task_empty_steps _ _ _ _ rfl

end Mydevify
